import Mathlib

/-!
Verification of the class-synthesis engine of
`transforms/helpers/transform-helper.js` (ember-native-class-codemod).

The JavaScript AST fragment relevant to the transform is embedded as a
mutual inductive family `Expr` / `Stmt` / `ObjProp`.  Each transform
function from the source file is translated into a Lean function of the
same name; mutation of nodes (done in place by jscodeshift) is modelled
by explicit value-returning rewrites, and in-place mutation of *input*
nodes is additionally captured by separate `...Post` functions that
return the post-state of the input.  Exceptions thrown by the JavaScript
code (property access on `undefined`) are modelled with `Option`.
-/

namespace EmberCodemod

mutual

/-- JavaScript expressions, as constructed and matched by the transform:
identifiers, `this`, `super`, literals, (non-computed) member access,
calls, function expressions (with the statement list of their block
body), object expressions and assignment expressions. -/
inductive Expr : Type where
  | ident (name : String) : Expr
  | thisE : Expr
  | superE : Expr
  | lit (value : String) : Expr
  | member (obj : Expr) (prop : Expr) : Expr
  | callExpr (callee : Expr) (args : List Expr) : Expr
  | funcExpr (id : Option String) (params : List Expr) (body : List Stmt) : Expr
  | objectExpr (props : List ObjProp) : Expr
  | assign (op : String) (lhs : Expr) (rhs : Expr) : Expr

/-- JavaScript statements.  An expression statement carries its attached
comments (jscodeshift nodes hold a `comments` field). -/
inductive Stmt : Type where
  | exprStmt (e : Expr) (comments : List String) : Stmt
  | block (stmts : List Stmt) : Stmt
  | ifStmt (cond : Expr) (thenS : Stmt) (elseS : Option Stmt) : Stmt
  | whileStmt (cond : Expr) (body : Stmt) : Stmt
  | returnStmt (arg : Option Expr) : Stmt

/-- One property of a JavaScript object expression: key, value,
accessor kind (`init`, `get`, `set`) and attached comments. -/
inductive ObjProp : Type where
  | mk (key : Expr) (value : Expr) (kind : String) (comments : List String) : ObjProp

end

def ObjProp.key : ObjProp → Expr
  | .mk k _ _ _ => k

def ObjProp.value : ObjProp → Expr
  | .mk _ v _ _ => v

def ObjProp.kind : ObjProp → String
  | .mk _ _ kd _ => kd

def ObjProp.comments : ObjProp → List String
  | .mk _ _ _ cs => cs

/-- The jscodeshift pattern used by `replaceSuperExpressions`: an
expression that is a `CallExpression` whose callee is a
`MemberExpression` whose `property` is the identifier `_super` (the
receiver object is left unconstrained by the pattern).  Returns the
argument list when the expression matches. -/
def superMatchArgs : Expr → Option (List Expr)
  | .callExpr (.member _ (.ident n)) args =>
      if n = "_super" then some args else none
  | _ => none

mutual

/-- Net effect on an expression of the `replaceSuperExpressions`
find-and-replace keyed by method key `k`: every descendant statement of
the shape matched by `superMatchArgs`, at any nesting depth, is replaced
by `super.<k>(<args>)`; all other structure is preserved. -/
def rsExpr (k : Expr) : Expr → Expr
  | .ident n => .ident n
  | .thisE => .thisE
  | .superE => .superE
  | .lit v => .lit v
  | .member o p => .member (rsExpr k o) (rsExpr k p)
  | .callExpr c args => .callExpr (rsExpr k c) (rsExprList k args)
  | .funcExpr id ps body => .funcExpr id (rsExprList k ps) (rsStmtList k body)
  | .objectExpr props => .objectExpr (rsObjPropList k props)
  | .assign op l r => .assign op (rsExpr k l) (rsExpr k r)

def rsExprList (k : Expr) : List Expr → List Expr
  | [] => []
  | e :: es => rsExpr k e :: rsExprList k es

def rsExprOpt (k : Expr) : Option Expr → Option Expr
  | none => none
  | some e => some (rsExpr k e)

def rsStmt (k : Expr) : Stmt → Stmt
  | .exprStmt (.callExpr (.member o (.ident n)) args) cs =>
      if n = "_super" then
        -- the replacement `j.expressionStatement(j.callExpression(
        -- j.memberExpression(j.super(), methodDefinition.key),
        -- superMethodArgs))` carries no comments; nested matches
        -- inside the forwarded argument nodes are replaced as well
        -- (the argument nodes are shared with the new statement).
        .exprStmt (.callExpr (.member .superE k) (rsExprList k args)) []
      else
        .exprStmt (.callExpr (.member (rsExpr k o) (.ident n)) (rsExprList k args)) cs
  | .exprStmt e cs => .exprStmt (rsExpr k e) cs
  | .block ss => .block (rsStmtList k ss)
  | .ifStmt c t e => .ifStmt (rsExpr k c) (rsStmt k t) (rsStmtOpt k e)
  | .whileStmt c b => .whileStmt (rsExpr k c) (rsStmt k b)
  | .returnStmt e => .returnStmt (rsExprOpt k e)

def rsStmtList (k : Expr) : List Stmt → List Stmt
  | [] => []
  | s :: ss => rsStmt k s :: rsStmtList k ss

def rsStmtOpt (k : Expr) : Option Stmt → Option Stmt
  | none => none
  | some s => some (rsStmt k s)

def rsObjProp (k : Expr) : ObjProp → ObjProp
  | .mk key v kd cs => .mk (rsExpr k key) (rsExpr k v) kd cs

def rsObjPropList (k : Expr) : List ObjProp → List ObjProp
  | [] => []
  | p :: ps => rsObjProp k p :: rsObjPropList k ps

end

example :
    rsStmt (.ident "save")
      (.exprStmt (.callExpr (.member .thisE (.ident "_super")) [.ident "arguments"]) ["c"]) =
      .exprStmt (.callExpr (.member .superE (.ident "save")) [.ident "arguments"]) [] := by
  simp [rsStmt, rsExprList, rsExpr]

/-- The `EOProp` legacy-property record consumed by the transform
(read-only input produced by the external parser): key, value, accessor
kind, type tag, computed flag, statically known name, comments, the
argument list of the original call (for call-expression properties) and
the two classification flags. -/
structure EOProp where
  key : Expr
  value : Expr
  kind : String
  type : String
  computed : Bool
  name : String
  comments : List String
  callExprArgs : List Expr
  isClassDecorator : Bool
  isCallExpression : Bool

/-- The duck-typed record accepted by `createMethodProp`: the source
passes either an `EOProp`, an object-expression entry, or the object
literal built inline in `createCallExpressionProp`; all expose `kind`,
`key`, `value` and `comments`. -/
structure FunctionProp where
  kind : String
  key : Expr
  value : Expr
  comments : List String

/-- A produced `MethodDefinition` node: kind (`method`, `get`, `set` or
`constructor`), key, function-expression value, comments, decorators. -/
structure MethodDefinition where
  kind : String
  key : Expr
  value : Expr
  comments : List String
  decorators : List String

/-- A produced `ClassProperty` node (class field): key, optional
initializer, computed flag, comments, decorators. -/
structure ClassProperty where
  key : Expr
  value : Option Expr
  computed : Bool
  comments : List String
  decorators : List String

/-- A member of the produced class body. -/
inductive Member : Type where
  | methodDef (m : MethodDefinition) : Member
  | classProp (p : ClassProperty) : Member

/-- The produced `ClassDeclaration`: optional name identifier, ordered
member list, superclass expression, class-level decorators. -/
structure ClassDeclaration where
  id : Option Expr
  body : List Member
  superClass : Expr
  decorators : List String

/-- Modelled from the spec: the external policy and decorator interfaces
that the core consumes but does not define (`shouldSetValue` from the
missing `util.js`; `createInstancePropDecorators`, `createClassDecorator`
and `createActionDecorators` from the missing `decorator-helper.js`).
They are opaque to the core beyond order and attachment point, so they
are modelled as an arbitrary record of functions. -/
structure ExternalPolicies where
  shouldSetValue : EOProp → Bool
  createInstancePropDecorators : EOProp → List String
  createClassDecorator : EOProp → String
  createActionDecorators : List String

/-- Modelled from the spec: `getPropName` from the missing `util.js`;
the property's statically known name (the name of its identifier key). -/
def getPropName (p : ObjProp) : String :=
  match p.key with
  | .ident n => n
  | _ => ""

/-- Nodes that carry a mutable `comments` field. -/
class HasComments (α : Type) where
  setComments : α → List String → α


instance : HasComments MethodDefinition :=
  ⟨fun m cs => { m with comments := cs }⟩

instance : HasComments ClassProperty :=
  ⟨fun p cs => { p with comments := cs }⟩

/-- Copy comments onto `to` (`withComments(to, from)` of the source;
the Lean version receives `from.comments` directly). -/
def withComments [HasComments α] (node : α) (comments : List String) : α :=
  HasComments.setComments node comments

/-- Nodes that carry a mutable `decorators` field. -/
class HasDecorators (α : Type) where
  setDecorators : α → List String → α

instance : HasDecorators MethodDefinition :=
  ⟨fun m ds => { m with decorators := ds }⟩

instance : HasDecorators ClassProperty :=
  ⟨fun p ds => { p with decorators := ds }⟩

/-- Modelled from the spec: `withDecorators` from the missing
`decorator-helper.js` — attaches the supplied ordered decorator list to
the node. -/
def withDecorators [HasDecorators α] (node : α) (decorators : List String) : α :=
  HasDecorators.setDecorators node decorators

/-- Transform instance properties to assignment statements
`this.<key> = <value>`, each carrying its property's comments
(`withComments` applied to the fresh expression statement). -/
def instancePropsToExpressions (instanceProps : List EOProp) : List Stmt :=
  instanceProps.map fun p =>
    .exprStmt (.assign "=" (.member .thisE p.key) p.value) p.comments

/-- Creates an empty `super()` expression statement. -/
def createSuperExpressionStatement : Stmt :=
  .exprStmt (.callExpr .superE []) []

/-- Replace instances of `this._super(...arguments)` inside the method
definition by `super.<methodName>(...arguments)`.  The jscodeshift
find/replace over the method-definition subtree is embedded as the
structural rewrite `rsExpr` of the method's value keyed by the method's
key (the pattern search descends through the whole value, and each
matching expression statement is replaced by a fresh, comment-free
statement). -/
def replaceSuperExpressions (methodDefinition : MethodDefinition) : MethodDefinition :=
  { methodDefinition with
      value := rsExpr methodDefinition.key methodDefinition.value }

/-- Transform a function-valued property to a class method:
`kind` maps `init` to `method` and is passed through otherwise; the
fresh method definition is rewritten by `replaceSuperExpressions`, given
the property's comments and the supplied decorators. -/
def createMethodProp (functionProp : FunctionProp) (decorators : List String) :
    MethodDefinition :=
  let propKind := if functionProp.kind = "init" then "method" else functionProp.kind
  withDecorators
    (withComments
      (replaceSuperExpressions
        { kind := propKind, key := functionProp.key, value := functionProp.value,
          comments := [], decorators := [] })
      functionProp.comments)
    decorators

/-- Create a constructor method: for a non-empty property list, one
`constructor` method whose body is an empty `super()` call followed by
the assignment statements of `instancePropsToExpressions`; for an empty
list, no constructor. -/
def createConstructor (instanceProps : List EOProp) : List MethodDefinition :=
  if instanceProps.length > 0 then
    [{ kind := "constructor", key := .ident "constructor",
       value := .funcExpr none []
         (createSuperExpressionStatement :: instancePropsToExpressions instanceProps),
       comments := [], decorators := [] }]
  else []

/-- Create a class field from an instance property: the initializer is
the property's value only when the external `shouldSetValue` policy says
so; the `computed` flag is copied from the property; comments and the
externally derived instance decorators are attached. -/
def createClassProp (P : ExternalPolicies) (instanceProp : EOProp) : ClassProperty :=
  let decorators := P.createInstancePropDecorators instanceProp
  let classProp :=
    withDecorators
      (withComments
        ({ key := instanceProp.key,
           value := if P.shouldSetValue instanceProp then some instanceProp.value else none,
           computed := false, comments := [], decorators := [] } : ClassProperty)
        instanceProp.comments)
      decorators
  { classProp with computed := instanceProp.computed }

/-- Expand the `actions` hash: each entry of the object-expression value
becomes a method carrying the fixed externally supplied action
decorators.  When the value is not an object expression, the source
reads `get(actionsProp, "value.properties")` (which is `undefined`) and
calls `.map` on it, raising a `TypeError`; this is modelled by `none`. -/
def createActionDecoratedProps (P : ExternalPolicies) (actionsProp : EOProp) :
    Option (List MethodDefinition) :=
  match actionsProp.value with
  | .objectExpr actionProps =>
      some (actionProps.map fun actionProp =>
        createMethodProp
          ⟨actionProp.kind, actionProp.key, actionProp.value, actionProp.comments⟩
          P.createActionDecorators)
  | _ => none

/-- One entry of the trailing object argument of a call-expression
property, after the in-place updates done inside the `.map` callback:
`kind` is set to the entry's own name, `key` to the outer property's
key, and the first parameter of the entry's function value is removed
(`value.params.shift()`).  When the entry's value is not a function
expression, `value.params` is `undefined` and `.shift()` raises a
`TypeError`, modelled by `none`. -/
def expandObjEntry (outerKey : Expr) (e : ObjProp) : Option MethodDefinition :=
  match e.value with
  | .funcExpr id ps body =>
      some (createMethodProp
        ⟨getPropName e, outerKey, .funcExpr id (ps.drop 1) body, e.comments⟩ [])
  | _ => none

/-- Sequence the expansion of the entries of a trailing object
argument, propagating the first raised `TypeError` as `none`. -/
def expandObjEntries (k : Expr) : List ObjProp → Option (List MethodDefinition)
  | [] => some []
  | e :: es =>
      match expandObjEntry k e, expandObjEntries k es with
      | some m, some ms => some (m :: ms)
      | _, _ => none

/-- Classify a call-expression property by the type of the last argument
of the original call.  A function expression delegates to
`createMethodProp` with the outer key and the instance decorators; an
object expression expands each entry through `expandObjEntry`, with the
outer comments and decorators then written onto the first produced
method (`callExprMethods[0]` — for an object with zero entries that
index is `undefined` and `withComments` raises a `TypeError`, modelled
by `none`); any other shape falls back to a plain class field. -/
def createCallExpressionProp (P : ExternalPolicies) (callExprProp : EOProp) :
    Option (List Member) :=
  match callExprProp.callExprArgs.getLast? with
  | some (.funcExpr id ps body) =>
      some [.methodDef (createMethodProp
        ⟨callExprProp.kind, callExprProp.key, .funcExpr id ps body, callExprProp.comments⟩
        (P.createInstancePropDecorators callExprProp))]
  | some (.objectExpr entries) =>
      match expandObjEntries callExprProp.key entries with
      | none => none
      | some [] => none
      | some (m :: ms) =>
          some (.methodDef
              (withDecorators (withComments m callExprProp.comments)
                (P.createInstancePropDecorators callExprProp))
            :: ms.map .methodDef)
  | _ => some [.classProp (createClassProp P callExprProp)]

/-- Create the superclass expression: with at least one mixin,
`<superClassName>.extend(<mixins>)`; otherwise the bare identifier of
the superclass name (also when the name is empty). -/
def createSuperClassExpression (superClassName : String) (mixins : List Expr) : Expr :=
  if mixins.length > 0 then
    .callExpr (.member (.ident superClassName) (.ident "extend")) mixins
  else .ident superClassName

/-- The `forEach` accumulation loop of `createClass`, with the class
decorators and class body accumulated so far; `none` propagates a
`TypeError` raised by a dispatched handler. -/
def createClassAux (P : ExternalPolicies) :
    List EOProp → List String → List Member → Option (List String × List Member)
  | [], classDecorators, classBody => some (classDecorators, classBody)
  | prop :: rest, classDecorators, classBody =>
    if prop.isClassDecorator then
      createClassAux P rest (classDecorators ++ [P.createClassDecorator prop]) classBody
    else if prop.type = "FunctionExpression" then
      createClassAux P rest classDecorators
        (classBody ++ [.methodDef (createMethodProp
          ⟨prop.kind, prop.key, prop.value, prop.comments⟩ [])])
    else if prop.isCallExpression then
      match createCallExpressionProp P prop with
      | none => none
      | some ms => createClassAux P rest classDecorators (classBody ++ ms)
    else if prop.name = "actions" then
      match createActionDecoratedProps P prop with
      | none => none
      | some ms =>
          createClassAux P rest classDecorators (classBody ++ ms.map .methodDef)
    else
      createClassAux P rest classDecorators
        (classBody ++ [.classProp (createClassProp P prop)])

/-- Create the class declaration: name identifier (or `null` for an
empty name), the class body accumulated over the properties, the
superclass expression, and the accumulated class decorators. -/
def createClass (P : ExternalPolicies) (className : String)
    (instanceProps : List EOProp) (superClassName : String) (mixins : List Expr) :
    Option ClassDeclaration :=
  (createClassAux P instanceProps [] []).map fun db =>
    { id := if className = "" then none else some (.ident className),
      body := db.2,
      superClass := createSuperClassExpression superClassName mixins,
      decorators := db.1 }

/-! ### Rewriter metatheory -/

theorem rsExprList_eq_map (k : Expr) : ∀ es : List Expr, rsExprList k es = es.map (rsExpr k)
  | [] => by simp [rsExprList]
  | e :: es => by simp [rsExprList, rsExprList_eq_map k es]

theorem rsStmtList_eq_map (k : Expr) : ∀ ss : List Stmt, rsStmtList k ss = ss.map (rsStmt k)
  | [] => by simp [rsStmtList]
  | s :: ss => by simp [rsStmtList, rsStmtList_eq_map k ss]

theorem rsObjPropList_eq_map (k : Expr) :
    ∀ ps : List ObjProp, rsObjPropList k ps = ps.map (rsObjProp k)
  | [] => by simp [rsObjPropList]
  | p :: ps => by simp [rsObjPropList, rsObjPropList_eq_map k ps]

/-- The inlined statement match of `rsStmt` agrees with the
`superMatchArgs` pattern: an expression statement is replaced when and
only when its expression matches, and is otherwise rebuilt by `rsExpr`
with its comments kept. -/
theorem rsStmt_exprStmt (k : Expr) (e : Expr) (cs : List String) :
    rsStmt k (.exprStmt e cs) =
      (match superMatchArgs e with
        | some args => .exprStmt (.callExpr (.member .superE k) (rsExprList k args)) []
        | none => .exprStmt (rsExpr k e) cs) := by
  match e with
  | .callExpr (.member o (.ident n)) args =>
      by_cases hn : n = "_super" <;>
        simp [rsStmt, superMatchArgs, hn, rsExpr]
  | .callExpr (.member o .thisE) args => simp [rsStmt, superMatchArgs]
  | .callExpr (.member o .superE) args => simp [rsStmt, superMatchArgs]
  | .callExpr (.member o (.lit v)) args => simp [rsStmt, superMatchArgs]
  | .callExpr (.member o (.member a b)) args => simp [rsStmt, superMatchArgs]
  | .callExpr (.member o (.callExpr c as)) args => simp [rsStmt, superMatchArgs]
  | .callExpr (.member o (.funcExpr id ps body)) args => simp [rsStmt, superMatchArgs]
  | .callExpr (.member o (.objectExpr prs)) args => simp [rsStmt, superMatchArgs]
  | .callExpr (.member o (.assign op l r)) args => simp [rsStmt, superMatchArgs]
  | .callExpr (.ident n) args => simp [rsStmt, superMatchArgs]
  | .callExpr .thisE args => simp [rsStmt, superMatchArgs]
  | .callExpr .superE args => simp [rsStmt, superMatchArgs]
  | .callExpr (.lit v) args => simp [rsStmt, superMatchArgs]
  | .callExpr (.callExpr c as) args => simp [rsStmt, superMatchArgs]
  | .callExpr (.funcExpr id ps body) args => simp [rsStmt, superMatchArgs]
  | .callExpr (.objectExpr prs) args => simp [rsStmt, superMatchArgs]
  | .callExpr (.assign op l r) args => simp [rsStmt, superMatchArgs]
  | .ident n => simp [rsStmt, superMatchArgs]
  | .thisE => simp [rsStmt, superMatchArgs]
  | .superE => simp [rsStmt, superMatchArgs]
  | .lit v => simp [rsStmt, superMatchArgs]
  | .member o p => simp [rsStmt, superMatchArgs]
  | .funcExpr id ps body => simp [rsStmt, superMatchArgs]
  | .objectExpr prs => simp [rsStmt, superMatchArgs]
  | .assign op l r => simp [rsStmt, superMatchArgs]

/-- Inversion of the jscodeshift pattern: a matching expression is a
call whose callee accesses the property `_super` on some receiver, and
the returned list is its argument list. -/
theorem superMatchArgs_some {e : Expr} {xs : List Expr}
    (h : superMatchArgs e = some xs) :
    ∃ o, e = .callExpr (.member o (.ident "_super")) xs := by
  match e with
  | .callExpr (.member o (.ident n)) args =>
      by_cases hn : n = "_super"
      · subst hn
        simp [superMatchArgs] at h
        exact ⟨o, by rw [h]⟩
      · simp [superMatchArgs, hn] at h
  | .callExpr (.member o .thisE) args => simp [superMatchArgs] at h
  | .callExpr (.member o .superE) args => simp [superMatchArgs] at h
  | .callExpr (.member o (.lit v)) args => simp [superMatchArgs] at h
  | .callExpr (.member o (.member a b)) args => simp [superMatchArgs] at h
  | .callExpr (.member o (.callExpr c as)) args => simp [superMatchArgs] at h
  | .callExpr (.member o (.funcExpr id ps body)) args => simp [superMatchArgs] at h
  | .callExpr (.member o (.objectExpr prs)) args => simp [superMatchArgs] at h
  | .callExpr (.member o (.assign op l r)) args => simp [superMatchArgs] at h
  | .callExpr (.ident n) args => simp [superMatchArgs] at h
  | .callExpr .thisE args => simp [superMatchArgs] at h
  | .callExpr .superE args => simp [superMatchArgs] at h
  | .callExpr (.lit v) args => simp [superMatchArgs] at h
  | .callExpr (.callExpr c as) args => simp [superMatchArgs] at h
  | .callExpr (.funcExpr id ps body) args => simp [superMatchArgs] at h
  | .callExpr (.objectExpr prs) args => simp [superMatchArgs] at h
  | .callExpr (.assign op l r) args => simp [superMatchArgs] at h
  | .ident n => simp [superMatchArgs] at h
  | .thisE => simp [superMatchArgs] at h
  | .superE => simp [superMatchArgs] at h
  | .lit v => simp [superMatchArgs] at h
  | .member o p => simp [superMatchArgs] at h
  | .funcExpr id ps body => simp [superMatchArgs] at h
  | .objectExpr prs => simp [superMatchArgs] at h
  | .assign op l r => simp [superMatchArgs] at h

/-- The rewrite preserves head constructors of expressions, so it cannot
create a new match: a non-matching expression stays non-matching. -/
theorem superMatchArgs_rsExpr_none (k : Expr) {e : Expr}
    (h : superMatchArgs e = none) : superMatchArgs (rsExpr k e) = none := by
  match e with
  | .callExpr (.member o (.ident n)) args =>
      by_cases hn : n = "_super"
      · subst hn; simp [superMatchArgs] at h
      · simp [rsExpr, superMatchArgs, hn]
  | .callExpr (.member o .thisE) args => simp [rsExpr, superMatchArgs]
  | .callExpr (.member o .superE) args => simp [rsExpr, superMatchArgs]
  | .callExpr (.member o (.lit v)) args => simp [rsExpr, superMatchArgs]
  | .callExpr (.member o (.member a b)) args => simp [rsExpr, superMatchArgs]
  | .callExpr (.member o (.callExpr c as)) args => simp [rsExpr, superMatchArgs]
  | .callExpr (.member o (.funcExpr id ps body)) args => simp [rsExpr, superMatchArgs]
  | .callExpr (.member o (.objectExpr prs)) args => simp [rsExpr, superMatchArgs]
  | .callExpr (.member o (.assign op l r)) args => simp [rsExpr, superMatchArgs]
  | .callExpr (.ident n) args => simp [rsExpr, superMatchArgs]
  | .callExpr .thisE args => simp [rsExpr, superMatchArgs]
  | .callExpr .superE args => simp [rsExpr, superMatchArgs]
  | .callExpr (.lit v) args => simp [rsExpr, superMatchArgs]
  | .callExpr (.callExpr c as) args => simp [rsExpr, superMatchArgs]
  | .callExpr (.funcExpr id ps body) args => simp [rsExpr, superMatchArgs]
  | .callExpr (.objectExpr prs) args => simp [rsExpr, superMatchArgs]
  | .callExpr (.assign op l r) args => simp [rsExpr, superMatchArgs]
  | .ident n => simp [rsExpr, superMatchArgs]
  | .thisE => simp [rsExpr, superMatchArgs]
  | .superE => simp [rsExpr, superMatchArgs]
  | .lit v => simp [rsExpr, superMatchArgs]
  | .member o p => simp [rsExpr, superMatchArgs]
  | .funcExpr id ps body => simp [rsExpr, superMatchArgs]
  | .objectExpr prs => simp [rsExpr, superMatchArgs]
  | .assign op l r => simp [rsExpr, superMatchArgs]

mutual

/-- Whether an expression contains, at any nesting depth, a statement
matching the superclass-delegation pattern. -/
def hasMatchE : Expr → Bool
  | .ident _ => false
  | .thisE => false
  | .superE => false
  | .lit _ => false
  | .member o p => hasMatchE o || hasMatchE p
  | .callExpr c args => hasMatchE c || hasMatchEL args
  | .funcExpr _ ps body => hasMatchEL ps || hasMatchSL body
  | .objectExpr props => hasMatchPL props
  | .assign _ l r => hasMatchE l || hasMatchE r

def hasMatchEL : List Expr → Bool
  | [] => false
  | e :: es => hasMatchE e || hasMatchEL es

def hasMatchEO : Option Expr → Bool
  | none => false
  | some e => hasMatchE e

/-- Whether a statement is, or contains at any nesting depth, a
statement matching the superclass-delegation pattern. -/
def hasMatchS : Stmt → Bool
  | .exprStmt e _ => (superMatchArgs e).isSome || hasMatchE e
  | .block ss => hasMatchSL ss
  | .ifStmt c t e => hasMatchE c || hasMatchS t || hasMatchSO e
  | .whileStmt c b => hasMatchE c || hasMatchS b
  | .returnStmt e => hasMatchEO e

def hasMatchSL : List Stmt → Bool
  | [] => false
  | s :: ss => hasMatchS s || hasMatchSL ss

def hasMatchSO : Option Stmt → Bool
  | none => false
  | some s => hasMatchS s

def hasMatchP : ObjProp → Bool
  | .mk k v _ _ => hasMatchE k || hasMatchE v

def hasMatchPL : List ObjProp → Bool
  | [] => false
  | p :: ps => hasMatchP p || hasMatchPL ps

end

mutual

/-- If no delegation match occurs anywhere inside an expression, the
rewrite leaves it unchanged. -/
theorem rsExpr_id (k : Expr) : ∀ e : Expr, hasMatchE e = false → rsExpr k e = e
  | .ident _, _ => by simp [rsExpr]
  | .thisE, _ => by simp [rsExpr]
  | .superE, _ => by simp [rsExpr]
  | .lit _, _ => by simp [rsExpr]
  | .member o p, h => by
      simp [hasMatchE] at h
      simp [rsExpr, rsExpr_id k o h.1, rsExpr_id k p h.2]
  | .callExpr c args, h => by
      simp [hasMatchE] at h
      simp [rsExpr, rsExpr_id k c h.1, rsExprList_id k args h.2]
  | .funcExpr id ps body, h => by
      simp [hasMatchE] at h
      simp [rsExpr, rsExprList_id k ps h.1, rsStmtList_id k body h.2]
  | .objectExpr props, h => by
      simp [hasMatchE] at h
      simp [rsExpr, rsObjPropList_id k props h]
  | .assign op l r, h => by
      simp [hasMatchE] at h
      simp [rsExpr, rsExpr_id k l h.1, rsExpr_id k r h.2]

theorem rsExprList_id (k : Expr) :
    ∀ es : List Expr, hasMatchEL es = false → rsExprList k es = es
  | [], _ => by simp [rsExprList]
  | e :: es, h => by
      simp [hasMatchEL] at h
      simp [rsExprList, rsExpr_id k e h.1, rsExprList_id k es h.2]

theorem rsExprOpt_id (k : Expr) :
    ∀ e : Option Expr, hasMatchEO e = false → rsExprOpt k e = e
  | none, _ => by simp [rsExprOpt]
  | some e, h => by
      simp [hasMatchEO] at h
      simp [rsExprOpt, rsExpr_id k e h]

/-- If no delegation match occurs anywhere inside a statement, the
rewrite leaves it unchanged. -/
theorem rsStmt_id (k : Expr) : ∀ s : Stmt, hasMatchS s = false → rsStmt k s = s
  | .exprStmt e cs, h => by
      simp [hasMatchS] at h
      rw [rsStmt_exprStmt]
      simp [h.1, rsExpr_id k e h.2]
  | .block ss, h => by
      simp [hasMatchS] at h
      simp [rsStmt, rsStmtList_id k ss h]
  | .ifStmt c t e, h => by
      simp [hasMatchS] at h
      obtain ⟨⟨h1, h2⟩, h3⟩ := h
      simp [rsStmt, rsExpr_id k c h1, rsStmt_id k t h2, rsStmtOpt_id k e h3]
  | .whileStmt c b, h => by
      simp [hasMatchS] at h
      simp [rsStmt, rsExpr_id k c h.1, rsStmt_id k b h.2]
  | .returnStmt e, h => by
      simp [hasMatchS] at h
      simp [rsStmt, rsExprOpt_id k e h]

theorem rsStmtList_id (k : Expr) :
    ∀ ss : List Stmt, hasMatchSL ss = false → rsStmtList k ss = ss
  | [], _ => by simp [rsStmtList]
  | s :: ss, h => by
      simp [hasMatchSL] at h
      simp [rsStmtList, rsStmt_id k s h.1, rsStmtList_id k ss h.2]

theorem rsStmtOpt_id (k : Expr) :
    ∀ s : Option Stmt, hasMatchSO s = false → rsStmtOpt k s = s
  | none, _ => by simp [rsStmtOpt]
  | some s, h => by
      simp [hasMatchSO] at h
      simp [rsStmtOpt, rsStmt_id k s h]

theorem rsObjProp_id (k : Expr) :
    ∀ p : ObjProp, hasMatchP p = false → rsObjProp k p = p
  | .mk key v kd cs, h => by
      simp [hasMatchP] at h
      simp [rsObjProp, rsExpr_id k key h.1, rsExpr_id k v h.2]

theorem rsObjPropList_id (k : Expr) :
    ∀ ps : List ObjProp, hasMatchPL ps = false → rsObjPropList k ps = ps
  | [], _ => by simp [rsObjPropList]
  | p :: ps, h => by
      simp [hasMatchPL] at h
      simp [rsObjPropList, rsObjProp_id k p h.1, rsObjPropList_id k ps h.2]

end

/-- Rewriting the statement produced by a replacement (with an
identifier method key) rewrites only its argument list: when the method
name is itself `_super` the statement matches again and is replaced by
an identical statement, and otherwise it is merely rebuilt. -/
theorem rsStmt_replacement (n : String) (L : List Expr) :
    rsStmt (.ident n) (.exprStmt (.callExpr (.member .superE (.ident n)) L) []) =
      .exprStmt (.callExpr (.member .superE (.ident n)) (rsExprList (.ident n) L)) [] := by
  by_cases hn : n = "_super" <;> simp [rsStmt, hn, rsExpr]

/-- Idempotence on a non-matching expression statement, given
idempotence on its expression. -/
theorem exprStmt_idem_aux (n : String) (e : Expr) (cs : List String)
    (h : superMatchArgs e = none)
    (he : rsExpr (.ident n) (rsExpr (.ident n) e) = rsExpr (.ident n) e) :
    rsStmt (.ident n) (rsStmt (.ident n) (.exprStmt e cs)) =
      rsStmt (.ident n) (.exprStmt e cs) := by
  rw [rsStmt_exprStmt]
  simp only [h]
  rw [rsStmt_exprStmt]
  simp only [superMatchArgs_rsExpr_none _ h, he]

mutual

/-- The rewrite keyed by an identifier is idempotent on expressions. -/
theorem rsExpr_idem (n : String) :
    ∀ e : Expr, rsExpr (.ident n) (rsExpr (.ident n) e) = rsExpr (.ident n) e
  | .ident _ => by simp [rsExpr]
  | .thisE => by simp [rsExpr]
  | .superE => by simp [rsExpr]
  | .lit _ => by simp [rsExpr]
  | .member o p => by simp [rsExpr, rsExpr_idem n o, rsExpr_idem n p]
  | .callExpr c args => by simp [rsExpr, rsExpr_idem n c, rsExprList_idem n args]
  | .funcExpr id ps body => by
      simp [rsExpr, rsExprList_idem n ps, rsStmtList_idem n body]
  | .objectExpr props => by simp [rsExpr, rsObjPropList_idem n props]
  | .assign op l r => by simp [rsExpr, rsExpr_idem n l, rsExpr_idem n r]

theorem rsExprList_idem (n : String) :
    ∀ es : List Expr,
      rsExprList (.ident n) (rsExprList (.ident n) es) = rsExprList (.ident n) es
  | [] => by simp [rsExprList]
  | e :: es => by simp [rsExprList, rsExpr_idem n e, rsExprList_idem n es]

theorem rsExprOpt_idem (n : String) :
    ∀ e : Option Expr,
      rsExprOpt (.ident n) (rsExprOpt (.ident n) e) = rsExprOpt (.ident n) e
  | none => by simp [rsExprOpt]
  | some e => by simp [rsExprOpt, rsExpr_idem n e]

/-- The rewrite keyed by an identifier is idempotent on statements. -/
theorem rsStmt_idem (n : String) :
    ∀ s : Stmt, rsStmt (.ident n) (rsStmt (.ident n) s) = rsStmt (.ident n) s
  | .exprStmt (.callExpr (.member o (.ident m)) args) cs => by
      by_cases hm : m = "_super"
      · subst hm
        rw [rsStmt_exprStmt]
        simp only [show superMatchArgs (.callExpr (.member o (.ident "_super")) args) =
          some args from by simp [superMatchArgs]]
        rw [rsStmt_replacement n (rsExprList (.ident n) args), rsExprList_idem n args]
      · exact exprStmt_idem_aux n _ cs (by simp [superMatchArgs, hm])
          (rsExpr_idem n (.callExpr (.member o (.ident m)) args))
  | .exprStmt (.callExpr (.member o .thisE) args) cs =>
      exprStmt_idem_aux n _ cs (by simp [superMatchArgs]) (rsExpr_idem n _)
  | .exprStmt (.callExpr (.member o .superE) args) cs =>
      exprStmt_idem_aux n _ cs (by simp [superMatchArgs]) (rsExpr_idem n _)
  | .exprStmt (.callExpr (.member o (.lit v)) args) cs =>
      exprStmt_idem_aux n _ cs (by simp [superMatchArgs]) (rsExpr_idem n _)
  | .exprStmt (.callExpr (.member o (.member a b)) args) cs =>
      exprStmt_idem_aux n _ cs (by simp [superMatchArgs]) (rsExpr_idem n _)
  | .exprStmt (.callExpr (.member o (.callExpr c2 as)) args) cs =>
      exprStmt_idem_aux n _ cs (by simp [superMatchArgs]) (rsExpr_idem n _)
  | .exprStmt (.callExpr (.member o (.funcExpr id ps body)) args) cs =>
      exprStmt_idem_aux n _ cs (by simp [superMatchArgs]) (rsExpr_idem n _)
  | .exprStmt (.callExpr (.member o (.objectExpr prs)) args) cs =>
      exprStmt_idem_aux n _ cs (by simp [superMatchArgs]) (rsExpr_idem n _)
  | .exprStmt (.callExpr (.member o (.assign op l r)) args) cs =>
      exprStmt_idem_aux n _ cs (by simp [superMatchArgs]) (rsExpr_idem n _)
  | .exprStmt (.callExpr (.ident m) args) cs =>
      exprStmt_idem_aux n _ cs (by simp [superMatchArgs]) (rsExpr_idem n _)
  | .exprStmt (.callExpr .thisE args) cs =>
      exprStmt_idem_aux n _ cs (by simp [superMatchArgs]) (rsExpr_idem n _)
  | .exprStmt (.callExpr .superE args) cs =>
      exprStmt_idem_aux n _ cs (by simp [superMatchArgs]) (rsExpr_idem n _)
  | .exprStmt (.callExpr (.lit v) args) cs =>
      exprStmt_idem_aux n _ cs (by simp [superMatchArgs]) (rsExpr_idem n _)
  | .exprStmt (.callExpr (.callExpr c2 as) args) cs =>
      exprStmt_idem_aux n _ cs (by simp [superMatchArgs]) (rsExpr_idem n _)
  | .exprStmt (.callExpr (.funcExpr id ps body) args) cs =>
      exprStmt_idem_aux n _ cs (by simp [superMatchArgs]) (rsExpr_idem n _)
  | .exprStmt (.callExpr (.objectExpr prs) args) cs =>
      exprStmt_idem_aux n _ cs (by simp [superMatchArgs]) (rsExpr_idem n _)
  | .exprStmt (.callExpr (.assign op l r) args) cs =>
      exprStmt_idem_aux n _ cs (by simp [superMatchArgs]) (rsExpr_idem n _)
  | .exprStmt (.ident m) cs =>
      exprStmt_idem_aux n _ cs (by simp [superMatchArgs]) (rsExpr_idem n _)
  | .exprStmt .thisE cs =>
      exprStmt_idem_aux n _ cs (by simp [superMatchArgs]) (rsExpr_idem n _)
  | .exprStmt .superE cs =>
      exprStmt_idem_aux n _ cs (by simp [superMatchArgs]) (rsExpr_idem n _)
  | .exprStmt (.lit v) cs =>
      exprStmt_idem_aux n _ cs (by simp [superMatchArgs]) (rsExpr_idem n _)
  | .exprStmt (.member o p) cs =>
      exprStmt_idem_aux n _ cs (by simp [superMatchArgs]) (rsExpr_idem n _)
  | .exprStmt (.funcExpr id ps body) cs =>
      exprStmt_idem_aux n _ cs (by simp [superMatchArgs]) (rsExpr_idem n _)
  | .exprStmt (.objectExpr prs) cs =>
      exprStmt_idem_aux n _ cs (by simp [superMatchArgs]) (rsExpr_idem n _)
  | .exprStmt (.assign op l r) cs =>
      exprStmt_idem_aux n _ cs (by simp [superMatchArgs]) (rsExpr_idem n _)
  | .block ss => by simp [rsStmt, rsStmtList_idem n ss]
  | .ifStmt c t e => by
      simp [rsStmt, rsExpr_idem n c, rsStmt_idem n t, rsStmtOpt_idem n e]
  | .whileStmt c b => by simp [rsStmt, rsExpr_idem n c, rsStmt_idem n b]
  | .returnStmt e => by simp [rsStmt, rsExprOpt_idem n e]

theorem rsStmtList_idem (n : String) :
    ∀ ss : List Stmt,
      rsStmtList (.ident n) (rsStmtList (.ident n) ss) = rsStmtList (.ident n) ss
  | [] => by simp [rsStmtList]
  | s :: ss => by simp [rsStmtList, rsStmt_idem n s, rsStmtList_idem n ss]

theorem rsStmtOpt_idem (n : String) :
    ∀ s : Option Stmt,
      rsStmtOpt (.ident n) (rsStmtOpt (.ident n) s) = rsStmtOpt (.ident n) s
  | none => by simp [rsStmtOpt]
  | some s => by simp [rsStmtOpt, rsStmt_idem n s]

theorem rsObjProp_idem (n : String) :
    ∀ p : ObjProp, rsObjProp (.ident n) (rsObjProp (.ident n) p) = rsObjProp (.ident n) p
  | .mk key v kd cs => by simp [rsObjProp, rsExpr_idem n key, rsExpr_idem n v]

theorem rsObjPropList_idem (n : String) :
    ∀ ps : List ObjProp,
      rsObjPropList (.ident n) (rsObjPropList (.ident n) ps) = rsObjPropList (.ident n) ps
  | [] => by simp [rsObjPropList]
  | p :: ps => by simp [rsObjPropList, rsObjProp_idem n p, rsObjPropList_idem n ps]

end

/-! ### Accessors and auxiliary characterizations -/

/-- The jscodeshift `type` tag of an expression node, as read by
`get(callExprLastArg, "type")`. -/
def exprType : Expr → String
  | .ident _ => "Identifier"
  | .thisE => "ThisExpression"
  | .superE => "Super"
  | .lit _ => "Literal"
  | .member _ _ => "MemberExpression"
  | .callExpr _ _ => "CallExpression"
  | .funcExpr _ _ _ => "FunctionExpression"
  | .objectExpr _ => "ObjectExpression"
  | .assign _ _ _ => "AssignmentExpression"

/-- The `type` tag of the last argument of a call-expression property
(`undefined`, i.e. `none`, when the argument list is empty). -/
def lastArgType (p : EOProp) : Option String :=
  (p.callExprArgs.getLast?).map exprType

/-- Whether an object-expression entry's value is a function expression. -/
def isFunctionValued (e : ObjProp) : Bool :=
  match e.value with
  | .funcExpr _ _ _ => true
  | _ => false

/-- Comments attached to a produced class member. -/
def memberComments : Member → List String
  | .methodDef m => m.comments
  | .classProp p => p.comments

/-- Key of a produced class member. -/
def memberKey : Member → Expr
  | .methodDef m => m.key
  | .classProp p => p.key

/-- Comments attached to a statement (empty for non-expression
statements, which carry none in this embedding). -/
def stmtComments : Stmt → List String
  | .exprStmt _ cs => cs
  | _ => []

theorem createMethodProp_kind (fp : FunctionProp) (ds : List String) :
    (createMethodProp fp ds).kind = if fp.kind = "init" then "method" else fp.kind := rfl

theorem createMethodProp_key (fp : FunctionProp) (ds : List String) :
    (createMethodProp fp ds).key = fp.key := rfl

theorem createMethodProp_value (fp : FunctionProp) (ds : List String) :
    (createMethodProp fp ds).value = rsExpr fp.key fp.value := rfl

theorem createMethodProp_comments (fp : FunctionProp) (ds : List String) :
    (createMethodProp fp ds).comments = fp.comments := rfl

theorem createMethodProp_decorators (fp : FunctionProp) (ds : List String) :
    (createMethodProp fp ds).decorators = ds := rfl

/-- A concrete instantiation of the external policy record, used by the
concrete evaluations below. -/
def samplePolicies : ExternalPolicies :=
  { shouldSetValue := fun _ => true,
    createInstancePropDecorators := fun _ => ["tracked"],
    createClassDecorator := fun p => p.name,
    createActionDecorators := ["action"] }

/-- The per-property dispatch of the class assembler, in the source's
precedence order: class-decorator properties contribute no member;
function-valued properties one method; call-expression properties the
result of `createCallExpressionProp`; the `actions` property its
expanded methods; anything else one plain field. -/
def dispatchMembers (P : ExternalPolicies) (p : EOProp) : Option (List Member) :=
  if p.isClassDecorator then some []
  else if p.type = "FunctionExpression" then
    some [.methodDef (createMethodProp ⟨p.kind, p.key, p.value, p.comments⟩ [])]
  else if p.isCallExpression then createCallExpressionProp P p
  else if p.name = "actions" then
    (createActionDecoratedProps P p).map (fun ms => ms.map .methodDef)
  else some [.classProp (createClassProp P p)]

/-- Per-property dispatch over a whole property list (`none` as soon as
one property's handler raises). -/
def dispatchAll (P : ExternalPolicies) : List EOProp → Option (List (List Member))
  | [] => some []
  | p :: ps =>
      match dispatchMembers P p, dispatchAll P ps with
      | some ms, some mss => some (ms :: mss)
      | _, _ => none

theorem createClassAux_eq (P : ExternalPolicies) :
    ∀ (props : List EOProp) (decs : List String) (body : List Member),
      createClassAux P props decs body =
        (dispatchAll P props).map fun mss =>
          (decs ++ (props.filter fun p => p.isClassDecorator).map P.createClassDecorator,
            body ++ mss.flatten)
  | [], decs, body => by simp [createClassAux, dispatchAll]
  | p :: ps, decs, body => by
      by_cases h1 : p.isClassDecorator
      · rw [show createClassAux P (p :: ps) decs body =
            createClassAux P ps (decs ++ [P.createClassDecorator p]) body from by
              simp [createClassAux, h1]]
        rw [createClassAux_eq P ps]
        cases hD : dispatchAll P ps <;>
          simp [dispatchAll, dispatchMembers, h1, hD, List.filter_cons]
      · by_cases h2 : p.type = "FunctionExpression"
        · rw [show createClassAux P (p :: ps) decs body =
              createClassAux P ps decs (body ++
                [.methodDef (createMethodProp ⟨p.kind, p.key, p.value, p.comments⟩ [])])
              from by simp [createClassAux, h1, h2]]
          rw [createClassAux_eq P ps]
          cases hD : dispatchAll P ps <;>
            simp [dispatchAll, dispatchMembers, h1, h2, hD, List.filter_cons]
        · by_cases h3 : p.isCallExpression
          · cases hC : createCallExpressionProp P p with
            | none =>
                rw [show createClassAux P (p :: ps) decs body = none from by
                  simp [createClassAux, h1, h2, h3, hC]]
                simp [dispatchAll, dispatchMembers, h1, h2, h3, hC]
            | some ms =>
                rw [show createClassAux P (p :: ps) decs body =
                    createClassAux P ps decs (body ++ ms) from by
                  simp [createClassAux, h1, h2, h3, hC]]
                rw [createClassAux_eq P ps]
                cases hD : dispatchAll P ps <;>
                  simp [dispatchAll, dispatchMembers, h1, h2, h3, hC, hD,
                    List.filter_cons]
          · by_cases h4 : p.name = "actions"
            · cases hA : createActionDecoratedProps P p with
              | none =>
                  rw [show createClassAux P (p :: ps) decs body = none from by
                    simp [createClassAux, h1, h2, h3, h4, hA]]
                  simp [dispatchAll, dispatchMembers, h1, h2, h3, h4, hA]
              | some ms =>
                  rw [show createClassAux P (p :: ps) decs body =
                      createClassAux P ps decs (body ++ ms.map .methodDef) from by
                    simp [createClassAux, h1, h2, h3, h4, hA]]
                  rw [createClassAux_eq P ps]
                  cases hD : dispatchAll P ps <;>
                    simp [dispatchAll, dispatchMembers, h1, h2, h3, h4, hA, hD,
                      List.filter_cons]
            · rw [show createClassAux P (p :: ps) decs body =
                  createClassAux P ps decs (body ++ [.classProp (createClassProp P p)])
                  from by simp [createClassAux, h1, h2, h3, h4]]
              rw [createClassAux_eq P ps]
              cases hD : dispatchAll P ps <;>
                simp [dispatchAll, dispatchMembers, h1, h2, h3, h4, hD,
                  List.filter_cons]

/-! ### Claim theorems -/

/-- C2: `createClass` dispatches each property by the source's
precedence (`isClassDecorator`, then function-valued `type`, then
`isCallExpression`, then `name = "actions"`, then plain field — the
order of the branches of `dispatchMembers`); the produced member list is
the order-preserving concatenation of each property's dispatched member
list (so a property expanding into several members keeps them contiguous
at its original position), class-decorator properties contribute no
member but accumulate class decorators in property order. -/
theorem claim2_createClass_dispatch (P : ExternalPolicies) (className : String)
    (props : List EOProp) (superClassName : String) (mixins : List Expr) :
    createClass P className props superClassName mixins =
      (dispatchAll P props).map fun mss =>
        { id := if className = "" then none else some (.ident className),
          body := mss.flatten,
          superClass := createSuperClassExpression superClassName mixins,
          decorators :=
            (props.filter fun p => p.isClassDecorator).map P.createClassDecorator } := by
  rw [createClass, createClassAux_eq]
  cases dispatchAll P props <;> simp

/-- C4: `createConstructor` produces zero constructors for an empty
property list, and otherwise exactly one constructor whose body is a
single no-argument `super()` call followed by one
`this.<key> = <value>` assignment statement per property, in the same
relative order as the input list. -/
theorem claim4_createConstructor_shape (props : List EOProp) :
    createConstructor props =
      if props.length = 0 then []
      else
        [{ kind := "constructor", key := .ident "constructor",
           value := .funcExpr none []
             (.exprStmt (.callExpr .superE []) [] ::
               props.map fun p =>
                 .exprStmt (.assign "=" (.member .thisE p.key) p.value) p.comments),
           comments := [], decorators := [] }] := by
  by_cases h : props.length = 0 <;>
    simp [createConstructor, h, Nat.pos_of_ne_zero, createSuperExpressionStatement,
      instancePropsToExpressions]

/-- C5 (amended): `createSuperClassExpression` returns the bare
identifier of the superclass name whenever the mixin list is empty —
including an identifier with empty name when the name is empty, never an
absent node — and `<name>.extend(<mixins>)` with mixin order preserved
when at least one mixin is present. -/
theorem claim5_createSuperClassExpression (name : String) (mixins : List Expr) :
    createSuperClassExpression name mixins =
      if mixins.isEmpty then .ident name
      else .callExpr (.member (.ident name) (.ident "extend")) mixins := by
  cases mixins <;> simp [createSuperClassExpression]

/-- Written from the claim's words (refinement reading of C5): the
superclass expression with an absent (`none`) result when the
superclass name is empty and there are no mixins. -/
def superclassExprClaim (name : String) (mixins : List Expr) : Option Expr :=
  if mixins.length > 0 then
    some (.callExpr (.member (.ident name) (.ident "extend")) mixins)
  else if name = "" then none
  else some (.ident name)

/-- C5, counterexample to the claim as stated: the claim requires a
null/absent superclass expression for an empty superclass name with no
mixins (`superclassExprClaim` returns `none` there), but the code
returns the present identifier node with empty name. -/
theorem claim5_counterexample :
    createSuperClassExpression "" [] = Expr.ident ""
    ∧ superclassExprClaim "" [] = none
    ∧ some (createSuperClassExpression "" []) ≠ superclassExprClaim "" [] := by
  refine ⟨by simp [createSuperClassExpression], by simp [superclassExprClaim], ?_⟩
  simp [createSuperClassExpression, superclassExprClaim]

/-- C9: the superclass-delegation rewriter is idempotent — applying
`replaceSuperExpressions` to its own output is a no-op, for every method
name and every method value. -/
theorem claim9_replaceSuperExpressions_idempotent (n : String) (kind : String)
    (value : Expr) (cs ds : List String) :
    replaceSuperExpressions (replaceSuperExpressions
      { kind := kind, key := .ident n, value := value, comments := cs, decorators := ds }) =
      replaceSuperExpressions
        { kind := kind, key := .ident n, value := value, comments := cs, decorators := ds } := by
  simp [replaceSuperExpressions, rsExpr_idem n value]

/-- C1: the delegation rewriter replaces exactly the full expression
statements consisting of a call to a property named `_super` (with the
receiver left implicit, i.e. unconstrained), at any nesting depth,
forwarding the original arguments unmodified and substituting
`super.<methodKey>(<args>)`; it does not rewrite the call used as a
sub-expression (e.g. on the right of an assignment) nor a call to a
property with any other name. -/
theorem claim1_replaceSuperExpressions_exact (k obj lhs cond : Expr)
    (args : List Expr) (cs : List String) (n : String) (ss ts : List Stmt)
    (hn : n ≠ "_super")
    (hargs : hasMatchEL args = false)
    (hlhs : hasMatchE lhs = false)
    (hobj : hasMatchE obj = false) :
    rsStmt k (.exprStmt (.callExpr (.member obj (.ident "_super")) args) cs) =
        .exprStmt (.callExpr (.member .superE k) args) []
      ∧ rsStmt k (.block ss) = .block (ss.map (rsStmt k))
      ∧ rsStmt k (.ifStmt cond (.block ss) (some (.block ts))) =
          .ifStmt (rsExpr k cond) (.block (ss.map (rsStmt k)))
            (some (.block (ts.map (rsStmt k))))
      ∧ rsStmt k (.whileStmt cond (.block ss)) =
          .whileStmt (rsExpr k cond) (.block (ss.map (rsStmt k)))
      ∧ rsStmt k
            (.exprStmt (.assign "=" lhs (.callExpr (.member obj (.ident "_super")) args)) cs) =
          .exprStmt (.assign "=" lhs (.callExpr (.member obj (.ident "_super")) args)) cs
      ∧ rsStmt k (.exprStmt (.callExpr (.member obj (.ident n)) args) cs) =
          .exprStmt (.callExpr (.member obj (.ident n)) args) cs := by
  refine ⟨?_, ?_, ?_, ?_, ?_, ?_⟩
  · simp [rsStmt, rsExprList_id k args hargs]
  · simp [rsStmt, rsStmtList_eq_map]
  · simp [rsStmt, rsStmtList_eq_map, rsStmtOpt]
  · simp [rsStmt, rsStmtList_eq_map]
  · simp [rsStmt, rsExpr, rsExpr_id k lhs hlhs, rsExpr_id k obj hobj,
      rsExprList_id k args hargs]
  · simp [rsStmt, hn, rsExpr_id k obj hobj, rsExprList_id k args hargs]

theorem claim1_witness :
    ("other" ≠ "_super")
    ∧ hasMatchEL [Expr.ident "arguments"] = false
    ∧ hasMatchE (Expr.ident "x") = false
    ∧ hasMatchE Expr.thisE = false
    ∧ rsStmt (.ident "save")
        (.exprStmt (.callExpr (.member .thisE (.ident "_super")) [.ident "arguments"])
          ["doc"]) =
        .exprStmt (.callExpr (.member .superE (.ident "save")) [.ident "arguments"]) []
    ∧ rsStmt (.ident "save")
        (.exprStmt (.callExpr (.member .thisE (.ident "other")) [.ident "arguments"])
          ["doc"]) =
        .exprStmt (.callExpr (.member .thisE (.ident "other")) [.ident "arguments"])
          ["doc"] :=
  ⟨by decide,
   by simp [hasMatchEL, hasMatchE],
   by simp [hasMatchE],
   by simp [hasMatchE],
   (claim1_replaceSuperExpressions_exact (.ident "save") .thisE (.ident "x") (.ident "c")
      [.ident "arguments"] ["doc"] "other" [.returnStmt none] []
      (by decide) (by simp [hasMatchEL, hasMatchE]) (by simp [hasMatchE])
      (by simp [hasMatchE])).1,
   (claim1_replaceSuperExpressions_exact (.ident "save") .thisE (.ident "x") (.ident "c")
      [.ident "arguments"] ["doc"] "other" [.returnStmt none] []
      (by decide) (by simp [hasMatchEL, hasMatchE]) (by simp [hasMatchE])
      (by simp [hasMatchE])).2.2.2.2.2⟩

/-! ### Object-expansion helpers -/

theorem withComments_method (m : MethodDefinition) (cs : List String) :
    withComments m cs = { m with comments := cs } := rfl

theorem withDecorators_method (m : MethodDefinition) (ds : List String) :
    withDecorators m ds = { m with decorators := ds } := rfl

theorem withComments_classProp (p : ClassProperty) (cs : List String) :
    withComments p cs = { p with comments := cs } := rfl

theorem withDecorators_classProp (p : ClassProperty) (ds : List String) :
    withDecorators p ds = { p with decorators := ds } := rfl

/-- The value of an object entry after `value.params.shift()` (identity
on non-function values, where the real code would have thrown before
reading the result). -/
def shiftedValue : Expr → Expr
  | .funcExpr id ps body => .funcExpr id (ps.drop 1) body
  | v => v

/-- The method produced for one entry of the trailing object argument of
a call-expression property: it shares the supplied outer key, takes its
kind from the entry's own name, drops the entry's first declared
parameter and keeps the entry's comments, with no decorators. -/
def objEntryMethod (outerKey : Expr) (e : ObjProp) : MethodDefinition :=
  createMethodProp ⟨getPropName e, outerKey, shiftedValue e.value, e.comments⟩ []

theorem objEntryMethod_comments (k : Expr) (e : ObjProp) :
    (objEntryMethod k e).comments = e.comments := rfl

theorem objEntryMethod_key (k : Expr) (e : ObjProp) :
    (objEntryMethod k e).key = k := rfl

theorem expandObjEntry_eq_some (k : Expr) (e : ObjProp)
    (h : isFunctionValued e = true) :
    expandObjEntry k e = some (objEntryMethod k e) := by
  cases hv : e.value <;>
    simp_all [isFunctionValued, expandObjEntry, objEntryMethod, shiftedValue]

theorem expandObjEntries_eq_map (k : Expr) :
    ∀ entries : List ObjProp, (∀ e ∈ entries, isFunctionValued e = true) →
      expandObjEntries k entries = some (entries.map (objEntryMethod k))
  | [], _ => by simp [expandObjEntries]
  | e :: es, h => by
      have h1 : isFunctionValued e = true := h e (by simp)
      have h2 : ∀ x ∈ es, isFunctionValued x = true := fun x hx => h x (by simp [hx])
      simp [expandObjEntries, expandObjEntry_eq_some k e h1,
        expandObjEntries_eq_map k es h2]

/-- The object branch of `createCallExpressionProp`, for a non-empty
entry list all of whose entries hold function values: one method per
entry, with the outer property's comments and decorators written onto
the first one. -/
theorem createCallExpressionProp_obj (P : ExternalPolicies) (p : EOProp)
    (e0 : ObjProp) (rest : List ObjProp)
    (hlast : p.callExprArgs.getLast? = some (.objectExpr (e0 :: rest)))
    (hfun : ∀ e ∈ e0 :: rest, isFunctionValued e = true) :
    createCallExpressionProp P p =
      some (.methodDef
          (withDecorators (withComments (objEntryMethod p.key e0) p.comments)
            (P.createInstancePropDecorators p))
        :: rest.map fun e => .methodDef (objEntryMethod p.key e)) := by
  have hm := expandObjEntries_eq_map p.key (e0 :: rest) hfun
  simp only [List.map_cons] at hm
  simp [createCallExpressionProp, hlast, hm]

/-- The `actions` branch of `createActionDecoratedProps` for an
object-expression value: each entry becomes a method with the fixed
action decorators, the entry's own key, kind, value and comments. -/
theorem createActionDecoratedProps_obj (P : ExternalPolicies) (a : EOProp)
    (entries : List ObjProp) (h : a.value = .objectExpr entries) :
    createActionDecoratedProps P a =
      some (entries.map fun e =>
        createMethodProp ⟨e.kind, e.key, e.value, e.comments⟩
          P.createActionDecorators) := by
  simp [createActionDecoratedProps, h]

/-- Kind of a produced class member (empty for a field, which carries
no accessor kind). -/
def memberKind : Member → String
  | .methodDef m => m.kind
  | .classProp _ => ""

/-- Function value of a produced class member. -/
def memberValue : Member → Option Expr
  | .methodDef m => some m.value
  | .classProp p => p.value

/-- C3 (amended): for a call-expression property whose last call
argument is an object expression with at least one entry, each entry
holding a function-expression value, the handler produces exactly one
method per entry, in entry order; every method shares the outer
property's key; each method's kind comes from the entry's own name
(with `init` mapped to `method`); each method's value is the entry's
function with its first declared parameter removed (then passed through
the delegation rewriter); the outer property's comments and decorators
are attached only to the first produced member, later members keeping
their own entry comments and no decorators.  (The claim as frozen also
covers an object with zero entries or non-function entries, where the
code instead raises a `TypeError`; see the counterexample.) -/
theorem claim3_createCallExpressionProp_objectExpansion (P : ExternalPolicies)
    (p : EOProp) (e0 : ObjProp) (rest : List ObjProp)
    (hlast : p.callExprArgs.getLast? = some (.objectExpr (e0 :: rest)))
    (hfun : ∀ e ∈ e0 :: rest, isFunctionValued e = true) :
    createCallExpressionProp P p =
        some (.methodDef
            (withDecorators (withComments (objEntryMethod p.key e0) p.comments)
              (P.createInstancePropDecorators p))
          :: rest.map fun e => .methodDef (objEntryMethod p.key e))
      ∧ (∀ ms, createCallExpressionProp P p = some ms →
          ms.length = (e0 :: rest).length
          ∧ (∀ m ∈ ms, memberKey m = p.key)
          ∧ ms.map memberComments = p.comments :: rest.map ObjProp.comments
          ∧ ms.map memberKind =
              (e0 :: rest).map
                (fun e => if getPropName e = "init" then "method" else getPropName e)
          ∧ ms.map memberValue =
              (e0 :: rest).map
                (fun e => some (rsExpr p.key (shiftedValue e.value)))) := by
  have hmain := createCallExpressionProp_obj P p e0 rest hlast hfun
  refine ⟨hmain, ?_⟩
  intro ms hms
  rw [hmain] at hms
  cases hms
  refine ⟨by simp, ?_, ?_, ?_, ?_⟩
  · intro m hm
    simp only [List.mem_cons, List.mem_map] at hm
    rcases hm with h | ⟨e, _, rfl⟩
    · subst h
      simp [memberKey, withDecorators_method, withComments_method, objEntryMethod_key]
    · simp [memberKey, objEntryMethod_key]
  · simp [memberComments, withDecorators_method, withComments_method,
      objEntryMethod_comments, List.map_map, Function.comp]
  · simp [memberKind, withDecorators_method, withComments_method, objEntryMethod,
      createMethodProp_kind, List.map_map, Function.comp]
  · simp [memberValue, withDecorators_method, withComments_method, objEntryMethod,
      createMethodProp_value, List.map_map, Function.comp]

theorem claim3_witness :
    ([Expr.lit "dep",
        Expr.objectExpr
          [.mk (.ident "get") (.funcExpr none [.ident "key"] []) "init" ["g"],
           .mk (.ident "set") (.funcExpr none [.ident "key", .ident "value"] [])
             "init" ["s"]]].getLast? =
        some (Expr.objectExpr
          [.mk (.ident "get") (.funcExpr none [.ident "key"] []) "init" ["g"],
           .mk (.ident "set") (.funcExpr none [.ident "key", .ident "value"] [])
             "init" ["s"]]))
    ∧ createCallExpressionProp samplePolicies
        { key := .ident "fullName", value := .lit "call", kind := "init",
          type := "CallExpression", computed := false, name := "fullName",
          comments := ["outer"],
          callExprArgs :=
            [Expr.lit "dep",
             Expr.objectExpr
               [.mk (.ident "get") (.funcExpr none [.ident "key"] []) "init" ["g"],
                .mk (.ident "set") (.funcExpr none [.ident "key", .ident "value"] [])
                  "init" ["s"]]],
          isClassDecorator := false, isCallExpression := true } =
        some (.methodDef
            (withDecorators
              (withComments
                (objEntryMethod (.ident "fullName")
                  (.mk (.ident "get") (.funcExpr none [.ident "key"] []) "init" ["g"]))
                ["outer"])
              ["tracked"])
          :: [.methodDef (objEntryMethod (.ident "fullName")
              (.mk (.ident "set") (.funcExpr none [.ident "key", .ident "value"] [])
                "init" ["s"]))]) := by
  constructor
  · simp
  · have h := (claim3_createCallExpressionProp_objectExpansion samplePolicies
      { key := .ident "fullName", value := .lit "call", kind := "init",
        type := "CallExpression", computed := false, name := "fullName",
        comments := ["outer"],
        callExprArgs :=
          [Expr.lit "dep",
           Expr.objectExpr
             [.mk (.ident "get") (.funcExpr none [.ident "key"] []) "init" ["g"],
              .mk (.ident "set") (.funcExpr none [.ident "key", .ident "value"] [])
                "init" ["s"]]],
        isClassDecorator := false, isCallExpression := true }
      (.mk (.ident "get") (.funcExpr none [.ident "key"] []) "init" ["g"])
      [.mk (.ident "set") (.funcExpr none [.ident "key", .ident "value"] []) "init" ["s"]]
      (by simp) (by simp [isFunctionValued, ObjProp.value])).1
    simpa [samplePolicies] using h

/-- C3, counterexample to the claim as frozen: an object expression with
zero entries makes `withComments(callExprMethods[0], …)` dereference
`undefined` (no members are produced), and an entry whose value is not a
function expression makes `value.params.shift()` dereference
`undefined`; in both cases the handler raises instead of producing one
method per entry. -/
theorem claim3_counterexample :
    createCallExpressionProp samplePolicies
        { key := .ident "zero", value := .lit "call", kind := "init",
          type := "CallExpression", computed := false, name := "zero",
          comments := [], callExprArgs := [Expr.objectExpr []],
          isClassDecorator := false, isCallExpression := true } = none
    ∧ createCallExpressionProp samplePolicies
        { key := .ident "bad", value := .lit "call", kind := "init",
          type := "CallExpression", computed := false, name := "bad",
          comments := [],
          callExprArgs := [Expr.objectExpr [.mk (.ident "get") (.lit "3") "init" []]],
          isClassDecorator := false, isCallExpression := true } = none := by
  constructor
  · simp [createCallExpressionProp, expandObjEntries]
  · simp [createCallExpressionProp, expandObjEntries, expandObjEntry, ObjProp.value]

/-- C6 (amended): a call-expression property whose last argument is
neither a function expression nor an object expression — including an
empty or absent argument list — degrades to a plain class field whose
key is the property's key and whose initializer preserves the
property's original (call-expression) value whenever the external
`shouldSetValue` policy allows it, instead of failing.  (The claim as
frozen also asserts this for an object expression with zero entries,
where the code instead raises; see the counterexample.) -/
theorem claim6_createCallExpressionProp_fallback (P : ExternalPolicies) (p : EOProp)
    (h1 : lastArgType p ≠ some "FunctionExpression")
    (h2 : lastArgType p ≠ some "ObjectExpression") :
    createCallExpressionProp P p = some [.classProp (createClassProp P p)]
    ∧ (createClassProp P p).key = p.key
    ∧ (createClassProp P p).value =
        (if P.shouldSetValue p then some p.value else none)
    ∧ (createClassProp P p).comments = p.comments := by
  refine ⟨?_, rfl, rfl, rfl⟩
  cases hL : p.callExprArgs.getLast? with
  | none => simp [createCallExpressionProp, hL]
  | some e =>
      cases e with
      | ident n => simp [createCallExpressionProp, hL]
      | thisE => simp [createCallExpressionProp, hL]
      | superE => simp [createCallExpressionProp, hL]
      | lit v => simp [createCallExpressionProp, hL]
      | member o pr => simp [createCallExpressionProp, hL]
      | callExpr c as => simp [createCallExpressionProp, hL]
      | funcExpr id ps body => exact absurd (by simp [lastArgType, hL, exprType]) h1
      | objectExpr prs => exact absurd (by simp [lastArgType, hL, exprType]) h2
      | assign op l r => simp [createCallExpressionProp, hL]

theorem claim6_witness :
    (lastArgType
        { key := .ident "tags", value := .lit "call", kind := "init",
          type := "CallExpression", computed := false, name := "tags",
          comments := ["d"], callExprArgs := [],
          isClassDecorator := false, isCallExpression := true } ≠
        some "FunctionExpression")
    ∧ (lastArgType
        { key := .ident "tags", value := .lit "call", kind := "init",
          type := "CallExpression", computed := false, name := "tags",
          comments := ["d"], callExprArgs := [],
          isClassDecorator := false, isCallExpression := true } ≠
        some "ObjectExpression")
    ∧ createCallExpressionProp samplePolicies
        { key := .ident "tags", value := .lit "call", kind := "init",
          type := "CallExpression", computed := false, name := "tags",
          comments := ["d"], callExprArgs := [],
          isClassDecorator := false, isCallExpression := true } =
        some [.classProp (createClassProp samplePolicies
          { key := .ident "tags", value := .lit "call", kind := "init",
            type := "CallExpression", computed := false, name := "tags",
            comments := ["d"], callExprArgs := [],
            isClassDecorator := false, isCallExpression := true })] :=
  ⟨by simp [lastArgType],
   by simp [lastArgType],
   (claim6_createCallExpressionProp_fallback samplePolicies _
      (by simp [lastArgType]) (by simp [lastArgType])).1⟩

/-- C6, counterexample to the claim as frozen: a call-expression
property whose last argument is an object expression with zero entries
does not degrade to a plain field — `callExprMethods` is empty and
`withComments(callExprMethods[0], …)` raises a `TypeError`, modelled by
`none`. -/
theorem claim6_counterexample :
    createCallExpressionProp samplePolicies
        { key := .ident "empty", value := .lit "call", kind := "init",
          type := "CallExpression", computed := false, name := "empty",
          comments := [], callExprArgs := [Expr.lit "dep", Expr.objectExpr []],
          isClassDecorator := false, isCallExpression := true } = none := by
  simp [createCallExpressionProp, expandObjEntries]

/-- C8: an `actions` property whose value is an object expression with K
entries expands to exactly K methods, in the object's original entry
order, each carrying the one fixed externally supplied action decorator
list. -/
theorem claim8_createActionDecoratedProps (P : ExternalPolicies) (p : EOProp)
    (entries : List ObjProp) (h : p.value = .objectExpr entries) :
    createActionDecoratedProps P p =
        some (entries.map fun e =>
          createMethodProp ⟨e.kind, e.key, e.value, e.comments⟩
            P.createActionDecorators)
      ∧ ∀ ms, createActionDecoratedProps P p = some ms →
          ms.length = entries.length
          ∧ ∀ m ∈ ms, m.decorators = P.createActionDecorators := by
  have hmain := createActionDecoratedProps_obj P p entries h
  refine ⟨hmain, ?_⟩
  intro ms hms
  rw [hmain] at hms
  cases hms
  refine ⟨by simp, ?_⟩
  intro m hm
  simp only [List.mem_map] at hm
  obtain ⟨e, _, rfl⟩ := hm
  simp [createMethodProp_decorators]

theorem claim8_witness :
    (({ key := .ident "actions", value := .objectExpr
          [.mk (.ident "save") (.funcExpr none [] []) "init" [],
           .mk (.ident "cancel") (.funcExpr none [] []) "init" []],
        kind := "init", type := "ObjectExpression", computed := false,
        name := "actions", comments := [], callExprArgs := [],
        isClassDecorator := false, isCallExpression := false } : EOProp).value =
      .objectExpr
        [.mk (.ident "save") (.funcExpr none [] []) "init" [],
         .mk (.ident "cancel") (.funcExpr none [] []) "init" []])
    ∧ createActionDecoratedProps samplePolicies
        { key := .ident "actions", value := .objectExpr
            [.mk (.ident "save") (.funcExpr none [] []) "init" [],
             .mk (.ident "cancel") (.funcExpr none [] []) "init" []],
          kind := "init", type := "ObjectExpression", computed := false,
          name := "actions", comments := [], callExprArgs := [],
          isClassDecorator := false, isCallExpression := false } =
        some
          [createMethodProp ⟨"init", .ident "save", .funcExpr none [] [], []⟩ ["action"],
           createMethodProp ⟨"init", .ident "cancel", .funcExpr none [] [], []⟩
             ["action"]] := by
  constructor
  · rfl
  · have h := (claim8_createActionDecoratedProps samplePolicies
      { key := .ident "actions", value := .objectExpr
          [.mk (.ident "save") (.funcExpr none [] []) "init" [],
           .mk (.ident "cancel") (.funcExpr none [] []) "init" []],
        kind := "init", type := "ObjectExpression", computed := false,
        name := "actions", comments := [], callExprArgs := [],
        isClassDecorator := false, isCallExpression := false }
      [.mk (.ident "save") (.funcExpr none [] []) "init" [],
       .mk (.ident "cancel") (.funcExpr none [] []) "init" []] rfl).1
    simpa [samplePolicies, ObjProp.kind, ObjProp.key, ObjProp.value,
      ObjProp.comments] using h

/-- C7 (amended): every produced member or constructor-assignment
statement carries its originating construct's comment sequence: a class
field carries its property's comments, a method carries its function
property's comments, constructor assignments carry their properties'
comments in order, and in the call-expression object expansion the outer
property's comments are written onto (only) the first produced member,
later members keeping their own entry's comments; in the `actions`
expansion, however, each produced method carries its own entry's
comments and the originating `actions` property's comments are dropped
(see the counterexample). -/
theorem claim7_comments (P : ExternalPolicies) (p : EOProp) (fp : FunctionProp)
    (ds : List String) (props : List EOProp)
    (q a : EOProp) (e0 : ObjProp) (rest entries : List ObjProp)
    (hq : q.callExprArgs.getLast? = some (.objectExpr (e0 :: rest)))
    (hqf : ∀ e ∈ e0 :: rest, isFunctionValued e = true)
    (ha : a.value = .objectExpr entries) :
    (createClassProp P p).comments = p.comments
    ∧ (createMethodProp fp ds).comments = fp.comments
    ∧ (instancePropsToExpressions props).map stmtComments = props.map EOProp.comments
    ∧ (∀ ms, createCallExpressionProp P q = some ms →
        ms.map memberComments = q.comments :: rest.map ObjProp.comments)
    ∧ (∀ ms, createActionDecoratedProps P a = some ms →
        ms.map MethodDefinition.comments = entries.map ObjProp.comments) := by
  refine ⟨rfl, rfl, ?_, ?_, ?_⟩
  · simp [instancePropsToExpressions, List.map_map, Function.comp, stmtComments]
  · intro ms hms
    rw [createCallExpressionProp_obj P q e0 rest hq hqf] at hms
    cases hms
    simp [memberComments, withDecorators_method, withComments_method,
      objEntryMethod_comments, List.map_map, Function.comp]
  · intro ms hms
    rw [createActionDecoratedProps_obj P a entries ha] at hms
    cases hms
    simp [List.map_map, Function.comp, createMethodProp_comments]

theorem claim7_witness :
    (({ key := .ident "calc", value := .lit "call", kind := "init",
        type := "CallExpression", computed := false, name := "calc",
        comments := ["outer doc"],
        callExprArgs := [Expr.objectExpr
          [.mk (.ident "get") (.funcExpr none [.ident "k"] []) "init" ["entry doc"]]],
        isClassDecorator := false, isCallExpression := true } : EOProp).callExprArgs.getLast? =
      some (.objectExpr
        [.mk (.ident "get") (.funcExpr none [.ident "k"] []) "init" ["entry doc"]]))
    ∧ (({ key := .ident "actions",
          value := .objectExpr
            [.mk (.ident "save") (.funcExpr none [] []) "init" ["save doc"]],
          kind := "init", type := "ObjectExpression", computed := false,
          name := "actions", comments := ["hash doc"], callExprArgs := [],
          isClassDecorator := false, isCallExpression := false } : EOProp).value =
      .objectExpr [.mk (.ident "save") (.funcExpr none [] []) "init" ["save doc"]])
    ∧ (createClassProp samplePolicies
        { key := .ident "plain", value := .lit "1", kind := "init", type := "Literal",
          computed := false, name := "plain", comments := ["field doc"],
          callExprArgs := [], isClassDecorator := false,
          isCallExpression := false }).comments = ["field doc"]
    ∧ (instancePropsToExpressions
        [{ key := .ident "plain", value := .lit "1", kind := "init", type := "Literal",
           computed := false, name := "plain", comments := ["field doc"],
           callExprArgs := [], isClassDecorator := false,
           isCallExpression := false }]).map stmtComments = [["field doc"]] := by
  refine ⟨by simp, rfl, ?_, ?_⟩
  · exact (claim7_comments samplePolicies
      { key := .ident "plain", value := .lit "1", kind := "init", type := "Literal",
        computed := false, name := "plain", comments := ["field doc"],
        callExprArgs := [], isClassDecorator := false, isCallExpression := false }
      ⟨"init", .ident "m", .funcExpr none [] [], ["m doc"]⟩ []
      [{ key := .ident "plain", value := .lit "1", kind := "init", type := "Literal",
         computed := false, name := "plain", comments := ["field doc"],
         callExprArgs := [], isClassDecorator := false, isCallExpression := false }]
      { key := .ident "calc", value := .lit "call", kind := "init",
        type := "CallExpression", computed := false, name := "calc",
        comments := ["outer doc"],
        callExprArgs := [Expr.objectExpr
          [.mk (.ident "get") (.funcExpr none [.ident "k"] []) "init" ["entry doc"]]],
        isClassDecorator := false, isCallExpression := true }
      { key := .ident "actions", value := .objectExpr
          [.mk (.ident "save") (.funcExpr none [] []) "init" ["save doc"]],
        kind := "init", type := "ObjectExpression", computed := false,
        name := "actions", comments := ["hash doc"], callExprArgs := [],
        isClassDecorator := false, isCallExpression := false }
      (.mk (.ident "get") (.funcExpr none [.ident "k"] []) "init" ["entry doc"]) []
      [.mk (.ident "save") (.funcExpr none [] []) "init" ["save doc"]]
      (by simp) (by simp [isFunctionValued, ObjProp.value]) rfl).1
  · have h := (claim7_comments samplePolicies
      { key := .ident "plain", value := .lit "1", kind := "init", type := "Literal",
        computed := false, name := "plain", comments := ["field doc"],
        callExprArgs := [], isClassDecorator := false, isCallExpression := false }
      ⟨"init", .ident "m", .funcExpr none [] [], ["m doc"]⟩ []
      [{ key := .ident "plain", value := .lit "1", kind := "init", type := "Literal",
         computed := false, name := "plain", comments := ["field doc"],
         callExprArgs := [], isClassDecorator := false, isCallExpression := false }]
      { key := .ident "calc", value := .lit "call", kind := "init",
        type := "CallExpression", computed := false, name := "calc",
        comments := ["outer doc"],
        callExprArgs := [Expr.objectExpr
          [.mk (.ident "get") (.funcExpr none [.ident "k"] []) "init" ["entry doc"]]],
        isClassDecorator := false, isCallExpression := true }
      { key := .ident "actions", value := .objectExpr
          [.mk (.ident "save") (.funcExpr none [] []) "init" ["save doc"]],
        kind := "init", type := "ObjectExpression", computed := false,
        name := "actions", comments := ["hash doc"], callExprArgs := [],
        isClassDecorator := false, isCallExpression := false }
      (.mk (.ident "get") (.funcExpr none [.ident "k"] []) "init" ["entry doc"]) []
      [.mk (.ident "save") (.funcExpr none [] []) "init" ["save doc"]]
      (by simp) (by simp [isFunctionValued, ObjProp.value]) rfl).2.2.1
    simpa using h

/-- C7, counterexample to the claim as frozen: an `actions` property
carrying comments expands into methods that carry only their own entry
comments — the originating property's comments (here `["outer doc"]`,
distinct from the produced `[]`) are not attached to the first produced
member, contradicting the claim for the actions-hash expansion. -/
theorem claim7_counterexample :
    (createActionDecoratedProps samplePolicies
        { key := .ident "actions", value := .objectExpr
            [.mk (.ident "save") (.funcExpr none [] []) "init" []],
          kind := "init", type := "ObjectExpression", computed := false,
          name := "actions", comments := ["outer doc"], callExprArgs := [],
          isClassDecorator := false, isCallExpression := false }).map
      (fun ms => ms.map MethodDefinition.comments) = some [[]]
    ∧ (["outer doc"] : List String) ≠ [] := by
  constructor
  · simp [createActionDecoratedProps, ObjProp.kind, ObjProp.key, ObjProp.value,
      ObjProp.comments, createMethodProp_comments]
  · simp

/-! ### Post-states of the in-place mutations (frame analysis) -/

/-- Post-state of the `functionProp` argument after `createMethodProp`:
`replaceSuperExpressions` rewrites matching statements in place inside
the shared `value` node (via `j(superExpr).replaceWith`), so after the
call the caller's property holds the rewritten function value. -/
def createMethodPropPost (functionProp : FunctionProp) : FunctionProp :=
  { functionProp with value := rsExpr functionProp.key functionProp.value }

/-- Post-state of one entry of the trailing object argument after the
`.map` callback of `createCallExpressionProp` ran on it: its `kind` is
overwritten with its own name, its `key` with the outer property's key,
its function value loses its first parameter and has its delegation
statements rewritten in place; `none` models the `TypeError` thrown on
a non-function value. -/
def expandObjEntryPost (outerKey : Expr) (e : ObjProp) : Option ObjProp :=
  match e.value with
  | .funcExpr id ps body =>
      some (.mk outerKey (rsExpr outerKey (.funcExpr id (ps.drop 1) body))
        (getPropName e) e.comments)
  | _ => none

def expandObjEntriesPost (k : Expr) : List ObjProp → Option (List ObjProp)
  | [] => some []
  | e :: es =>
      match expandObjEntryPost k e, expandObjEntriesPost k es with
      | some e2, some es2 => some (e2 :: es2)
      | _, _ => none

/-- Post-state of the input property after `createCallExpressionProp`:
`callExprArgs.slice(0)` copies the argument array, so the list structure
is untouched, but the node of the last argument is shared and is
mutated in place by the function and object branches; the fallback
branch builds only fresh nodes.  `none` models a thrown `TypeError`. -/
def createCallExpressionPropPost (p : EOProp) : Option EOProp :=
  match p.callExprArgs.getLast? with
  | some (.funcExpr id ps body) =>
      some { p with callExprArgs :=
        p.callExprArgs.dropLast ++ [rsExpr p.key (.funcExpr id ps body)] }
  | some (.objectExpr entries) =>
      match expandObjEntriesPost p.key entries with
      | none => none
      | some [] => none
      | some es => some { p with callExprArgs :=
          p.callExprArgs.dropLast ++ [.objectExpr es] }
  | _ => some p

/-- C10 (amended): the synthesizers are pure except for the in-place
rewrites of `replaceSuperExpressions` and of the object branch of
`createCallExpressionProp`: a call-expression property whose last
argument is neither a function nor an object expression is returned
unmodified; one whose last argument is a function expression containing
no delegation match is returned unmodified; and `createMethodProp`
leaves its input property unmodified whenever the function value
contains no delegation match.  (When the trailing argument is an object
expression, the input is mutated — see the counterexample.) -/
theorem claim10_purity (p q : EOProp) (fp : FunctionProp)
    (id0 : Option String) (qs : List Expr) (body : List Stmt)
    (hp1 : lastArgType p ≠ some "FunctionExpression")
    (hp2 : lastArgType p ≠ some "ObjectExpression")
    (hq : q.callExprArgs.getLast? = some (.funcExpr id0 qs body))
    (hqm : hasMatchE (.funcExpr id0 qs body) = false)
    (hfp : hasMatchE fp.value = false) :
    createCallExpressionPropPost p = some p
    ∧ createCallExpressionPropPost q = some q
    ∧ createMethodPropPost fp = fp := by
  refine ⟨?_, ?_, ?_⟩
  · cases hL : p.callExprArgs.getLast? with
    | none => simp [createCallExpressionPropPost, hL]
    | some e =>
        cases e with
        | ident n => simp [createCallExpressionPropPost, hL]
        | thisE => simp [createCallExpressionPropPost, hL]
        | superE => simp [createCallExpressionPropPost, hL]
        | lit v => simp [createCallExpressionPropPost, hL]
        | member o pr => simp [createCallExpressionPropPost, hL]
        | callExpr c as => simp [createCallExpressionPropPost, hL]
        | funcExpr id ps b => exact absurd (by simp [lastArgType, hL, exprType]) hp1
        | objectExpr prs => exact absurd (by simp [lastArgType, hL, exprType]) hp2
        | assign op l r => simp [createCallExpressionPropPost, hL]
  · have hdl : q.callExprArgs.dropLast ++ [Expr.funcExpr id0 qs body] = q.callExprArgs :=
      List.dropLast_append_getLast? _ (Option.mem_def.mpr hq)
    simp [createCallExpressionPropPost, hq, rsExpr_id _ _ hqm, hdl]
  · simp [createMethodPropPost, rsExpr_id _ _ hfp]

theorem claim10_witness :
    (lastArgType
        { key := .ident "tags", value := .lit "call", kind := "init",
          type := "CallExpression", computed := false, name := "tags",
          comments := [], callExprArgs := [Expr.lit "dep"],
          isClassDecorator := false, isCallExpression := true } ≠
      some "FunctionExpression")
    ∧ (({ key := .ident "mac", value := .lit "call", kind := "init",
          type := "CallExpression", computed := false, name := "mac",
          comments := [], callExprArgs := [Expr.funcExpr none [] [.returnStmt none]],
          isClassDecorator := false, isCallExpression := true } : EOProp).callExprArgs.getLast? =
      some (.funcExpr none [] [.returnStmt none]))
    ∧ createCallExpressionPropPost
        { key := .ident "tags", value := .lit "call", kind := "init",
          type := "CallExpression", computed := false, name := "tags",
          comments := [], callExprArgs := [Expr.lit "dep"],
          isClassDecorator := false, isCallExpression := true } =
      some
        { key := .ident "tags", value := .lit "call", kind := "init",
          type := "CallExpression", computed := false, name := "tags",
          comments := [], callExprArgs := [Expr.lit "dep"],
          isClassDecorator := false, isCallExpression := true }
    ∧ createCallExpressionPropPost
        { key := .ident "mac", value := .lit "call", kind := "init",
          type := "CallExpression", computed := false, name := "mac",
          comments := [], callExprArgs := [Expr.funcExpr none [] [.returnStmt none]],
          isClassDecorator := false, isCallExpression := true } =
      some
        { key := .ident "mac", value := .lit "call", kind := "init",
          type := "CallExpression", computed := false, name := "mac",
          comments := [], callExprArgs := [Expr.funcExpr none [] [.returnStmt none]],
          isClassDecorator := false, isCallExpression := true }
    ∧ createMethodPropPost ⟨"init", .ident "m", .funcExpr none [] [], ["d"]⟩ =
        ⟨"init", .ident "m", .funcExpr none [] [], ["d"]⟩ := by
  have h := claim10_purity
    { key := .ident "tags", value := .lit "call", kind := "init",
      type := "CallExpression", computed := false, name := "tags",
      comments := [], callExprArgs := [Expr.lit "dep"],
      isClassDecorator := false, isCallExpression := true }
    { key := .ident "mac", value := .lit "call", kind := "init",
      type := "CallExpression", computed := false, name := "mac",
      comments := [], callExprArgs := [Expr.funcExpr none [] [.returnStmt none]],
      isClassDecorator := false, isCallExpression := true }
    ⟨"init", .ident "m", .funcExpr none [] [], ["d"]⟩
    none [] [.returnStmt none]
    (by simp [lastArgType, exprType]) (by simp [lastArgType, exprType])
    (by simp)
    (by simp [hasMatchE, hasMatchEL, hasMatchSL, hasMatchS, hasMatchEO])
    (by simp [hasMatchE, hasMatchEL, hasMatchSL])
  exact ⟨by simp [lastArgType, exprType], by simp, h.1, h.2.1, h.2.2⟩

/-- C10, counterexample to the claim as frozen: the object branch of
`createCallExpressionProp` mutates nodes reachable from the input
property — the entry of the trailing object argument has its key
overwritten by the outer key, its kind overwritten by its own name, and
its first parameter removed — so the input property collection is not
identical before and after the transformation. -/
theorem claim10_counterexample :
    createCallExpressionPropPost
        { key := .ident "fullName", value := .lit "call", kind := "init",
          type := "CallExpression", computed := false, name := "fullName",
          comments := [],
          callExprArgs :=
            [Expr.objectExpr [.mk (.ident "get") (.funcExpr none [.ident "k"] []) "init" []]],
          isClassDecorator := false, isCallExpression := true } ≠
      some
        { key := .ident "fullName", value := .lit "call", kind := "init",
          type := "CallExpression", computed := false, name := "fullName",
          comments := [],
          callExprArgs :=
            [Expr.objectExpr [.mk (.ident "get") (.funcExpr none [.ident "k"] []) "init" []]],
          isClassDecorator := false, isCallExpression := true } := by
  simp [createCallExpressionPropPost, expandObjEntriesPost, expandObjEntryPost,
    ObjProp.value, ObjProp.comments, getPropName, ObjProp.key, rsExpr, rsExprList,
    rsStmtList]

end EmberCodemod
